import Mathlib

/-!
Verification of the `rs-cinic-10` dataset indexer.

This file gives a shallow embedding of the core of the repository
(`crates/rs-cinic-10-index/src/index.rs` and `src/images.rs`) and proves
the specified properties about it.

Rust `&str` values are modelled as `List Char` (`RStr`); Rust string
operations (`trim`, `starts_with`, `trim_start_matches`, `find`, `split`)
become structural list functions with the same semantics.  Fallible code
(`Result`, `?`) becomes `Except`; panics (`unwrap`, `assert!`,
`assert_eq!`, out-of-range indexing) become dedicated `panic*` error
constructors or `Option`, so that panic behaviour stays observable.
-/

set_option maxHeartbeats 1000000

/-- Rust `&str`, modelled as its character sequence. -/
abbrev RStr := List Char

/-- The Unicode `White_Space` characters, as used by Rust `char::is_whitespace`
(and hence by `str::trim`). -/
def isRustWhitespace (c : Char) : Bool :=
  c == '\u0009' || c == '\u000a' || c == '\u000b' || c == '\u000c' || c == '\u000d' ||
  c == '\u0020' || c == '\u0085' || c == '\u00a0' || c == '\u1680' ||
  c == '\u2000' || c == '\u2001' || c == '\u2002' || c == '\u2003' || c == '\u2004' ||
  c == '\u2005' || c == '\u2006' || c == '\u2007' || c == '\u2008' || c == '\u2009' ||
  c == '\u200a' || c == '\u2028' || c == '\u2029' || c == '\u202f' || c == '\u205f' ||
  c == '\u3000'

/-- Rust `str::trim`: remove leading and trailing whitespace. -/
def trimChars (s : RStr) : RStr :=
  ((s.dropWhile isRustWhitespace).reverse.dropWhile isRustWhitespace).reverse

/-- Rust `cur.starts_with("-")`. -/
def startsWithDash : RStr → Bool
  | [] => false
  | c :: _ => c == '-'

/-- Rust `line.find(c)` combined with the two slices `line[..pos]` /
`line[pos+1..]`: splits at the first occurrence of `c`, or `none` when `c`
does not occur. -/
def splitFirst (c : Char) : RStr → Option (RStr × RStr)
  | [] => none
  | x :: xs =>
    if x = c then some ([], xs)
    else (splitFirst c xs).map (fun p => (x :: p.1, p.2))

/-- Rust `str::split(c)` (note: splitting the empty string yields `[""]`). -/
def splitOnChar (c : Char) : RStr → List RStr
  | [] => [[]]
  | x :: xs =>
    match splitOnChar c xs with
    | [] => [[x]]
    | h :: t => if x = c then [] :: h :: t else (x :: h) :: t

/-- The ten CINIC-10 object classes, in the fixed declared order
(`ObjectClass` in `index.rs`, with `strum` `EnumIter` following declaration
order). -/
inductive ObjectClass where
  | airplane | automobile | bird | cat | deer | dog | frog | horse | ship | truck
deriving DecidableEq

/-- `ObjectClass::to_string()` (strum `Display`, `serialize_all = "lowercase"`). -/
def ObjectClass.label : ObjectClass → String
  | .airplane => "airplane"
  | .automobile => "automobile"
  | .bird => "bird"
  | .cat => "cat"
  | .deer => "deer"
  | .dog => "dog"
  | .frog => "frog"
  | .horse => "horse"
  | .ship => "ship"
  | .truck => "truck"

/-- `ObjectClass::iter()`: the declared enumeration order. -/
def ObjectClass.all : List ObjectClass :=
  [.airplane, .automobile, .bird, .cat, .deer, .dog, .frog, .horse, .ship, .truck]

/-- `ObjectClass::from_str` (strum `EnumString`, lowercase, exact match). -/
def objectClassFromChars (s : RStr) : Option ObjectClass :=
  ObjectClass.all.find? (fun oc => oc.label.toList == s)

/-- `SAMPLES_PER_CLASS` in `index.rs`. -/
def SAMPLES_PER_CLASS : Nat := 9000

/-- `SAMPLES_PER_DATASET = SAMPLES_PER_CLASS * ObjectClass::COUNT`. -/
def SAMPLES_PER_DATASET : Nat := SAMPLES_PER_CLASS * ObjectClass.all.length

/-- `SynsetNode` in `index.rs`. -/
structure SynsetNode where
  synset_id : RStr
  object_class : ObjectClass
  synset_base_id : Option RStr
  aliases : List RStr
deriving DecidableEq

/-- The ways `parse_synset_map` can fail.  Constructors named `panic*`
correspond to Rust panics (`assert!`, `unwrap`), the others to `Err`
returns propagated with `?`. -/
inductive ParseErr where
  /-- `ObjectClass::from_str(cur)?` failed on a class-header line. -/
  | badClassHeader (line : RStr)
  /-- the `assert!(object_class.is_some(), ..)` panic: data line before any header. -/
  | panicEntryBeforeClass
  /-- the `line.find(':').unwrap()` panic: data line without a colon. -/
  | panicNoColon
deriving DecidableEq

/-- Mutable state of the `parse_synset_map` loop.  The Rust `HashMap` is
modelled as an insertion list with the newest binding first; `insert` is
`cons` and lookup takes the first (most recent) match, which is exactly
the map's last-write-wins semantics. -/
structure ParseState where
  object_class : Option ObjectClass
  synset_stack : List (Nat × RStr)
  synset_map : List (RStr × SynsetNode)
deriving DecidableEq

/-- `HashMap::get` on the model: most recent binding for the key. -/
def synsetLookup (m : List (RStr × SynsetNode)) (k : RStr) : Option SynsetNode :=
  (m.find? (fun p => p.1 == k)).map (fun p => p.2)

/-- One iteration of the `for res in rdr.lines()` loop of
`parse_synset_map` (`index.rs` lines 149-209). -/
def processLine (st : ParseState) (full_line : RStr) : Except ParseErr ParseState :=
  let cur := trimChars full_line
  if ¬ startsWithDash cur then
    match objectClassFromChars cur with
    | none => .error (.badClassHeader cur)
    | some oc => .ok { object_class := some oc, synset_stack := [], synset_map := st.synset_map }
  else
    match st.object_class with
    | none => .error .panicEntryBeforeClass
    | some oc =>
      let line := cur.dropWhile (fun c => c == '-')
      let depth := cur.length - line.length
      match splitFirst ':' line with
      | none => .error .panicNoColon
      | some (synset_id, rest) =>
        let aliases := (splitOnChar ',' rest).map trimChars
        let stack := st.synset_stack.dropWhile (fun p => decide (depth ≤ p.1))
        let synset_base_id := stack.head?.map (fun p => p.2)
        let node : SynsetNode :=
          { synset_id := synset_id, object_class := oc,
            synset_base_id := synset_base_id, aliases := aliases }
        .ok { object_class := some oc,
              synset_stack := (depth, synset_id) :: stack,
              synset_map := (synset_id, node) :: st.synset_map }

/-- `parse_synset_map`, over the list of input lines. -/
def parseSynsetLines (lines : List RStr) : Except ParseErr ParseState :=
  lines.foldlM processLine { object_class := none, synset_stack := [], synset_map := [] }

/-- `parse_synset_map` (`index.rs` lines 139-212), returning the final map. -/
def parse_synset_map (lines : List String) : Except ParseErr (List (RStr × SynsetNode)) :=
  (parseSynsetLines (lines.map String.toList)).map (fun st => st.synset_map)

/-- Rust `BufRead::lines()` on a whole input: split on `'\n'`, drop the
empty fragment produced by a final terminator, and strip one trailing
`'\r'` from each line. -/
def rustLinesC (s : RStr) : List RStr :=
  let parts := splitOnChar '\n' s
  let parts := if parts.getLast? = some [] then parts.dropLast else parts
  parts.map (fun l => if l.getLast? = some '\r' then l.dropLast else l)

/-- `parse_synset_map` applied to a whole text (reader contents). -/
def parse_synset_map_text (s : String) : Except ParseErr (List (RStr × SynsetNode)) :=
  (parseSynsetLines (rustLinesC s.toList)).map (fun st => st.synset_map)

/-- Modelled from the spec: state of the reference form of the taxonomy
loop, which keeps the full history of data lines `(depth, id)` seen since
the last class header instead of a pruned stack. -/
structure SpecParseState where
  object_class : Option ObjectClass
  hist : List (Nat × RStr)
  synset_map : List (RStr × SynsetNode)
deriving DecidableEq

/-- Modelled from the spec: "the parsed parent of a node is always the
nearest preceding line with strictly smaller depth" — the last entry of
the history whose depth is strictly below `depth`. -/
def nearestShallower (hist : List (Nat × RStr)) (depth : Nat) : Option RStr :=
  ((hist.filter (fun p => decide (p.1 < depth))).getLast?).map (fun p => p.2)

/-- Modelled from the spec: one line of the reference taxonomy loop; it
differs from `processLine` only in computing the parent by
`nearestShallower` over the full segment history. -/
def specProcessLine (st : SpecParseState) (full_line : RStr) : Except ParseErr SpecParseState :=
  let cur := trimChars full_line
  if ¬ startsWithDash cur then
    match objectClassFromChars cur with
    | none => .error (.badClassHeader cur)
    | some oc => .ok { object_class := some oc, hist := [], synset_map := st.synset_map }
  else
    match st.object_class with
    | none => .error .panicEntryBeforeClass
    | some oc =>
      let line := cur.dropWhile (fun c => c == '-')
      let depth := cur.length - line.length
      match splitFirst ':' line with
      | none => .error .panicNoColon
      | some (synset_id, rest) =>
        let aliases := (splitOnChar ',' rest).map trimChars
        let synset_base_id := nearestShallower st.hist depth
        let node : SynsetNode :=
          { synset_id := synset_id, object_class := oc,
            synset_base_id := synset_base_id, aliases := aliases }
        .ok { object_class := some oc,
              hist := st.hist ++ [(depth, synset_id)],
              synset_map := (synset_id, node) :: st.synset_map }

/-- Modelled from the spec: the reference taxonomy loop over all lines. -/
def specParseSynsetLines (lines : List RStr) : Except ParseErr SpecParseState :=
  lines.foldlM specProcessLine { object_class := none, hist := [], synset_map := [] }

/-- Modelled from the spec: the reference form of `parse_synset_map`,
assigning every node the nearest preceding strictly-shallower data line
of its class segment as parent. -/
def parse_synset_map_nearest (lines : List String) : Except ParseErr (List (RStr × SynsetNode)) :=
  (specParseSynsetLines (lines.map String.toList)).map (fun st => st.synset_map)

/-! ## Paths, directory listings and the split index (`index.rs` 223-330) -/

/-- A filesystem path: an absolute-or-relative flag plus the (non-root)
components.  Models Rust `PathBuf`. -/
structure RPath where
  absolute : Bool
  components : List String
deriving DecidableEq

/-- Rust `Path::join`: an absolute argument replaces the receiver, a
relative argument is appended component-wise. -/
def RPath.join (p q : RPath) : RPath :=
  if q.absolute then q else { absolute := p.absolute, components := p.components ++ q.components }

/-- A single relative component (a file or directory name used with `join`). -/
def relFile (name : String) : RPath := { absolute := false, components := [name] }

/-- Lexicographic comparison of component lists by the string order
(Rust `OsStr` comparison is bytewise, which on UTF-8 agrees with the
codepoint order used by `String` here). -/
def strListLe : List String → List String → Bool
  | [], _ => true
  | _ :: _, [] => false
  | a :: as, b :: bs => if a = b then strListLe as bs else decide (a < b)

/-- Rust `PathBuf` ordering: component-wise; the `RootDir` component of an
absolute path sorts before any normal component. -/
def RPath.leB (p q : RPath) : Bool :=
  if p.absolute = q.absolute then strListLe p.components q.components else p.absolute

/-- `RPath.leB` as a decidable relation, for use with `List.insertionSort`. -/
def RPath.le (p q : RPath) : Prop := p.leB q = true

instance : DecidableRel RPath.le := fun p q => inferInstanceAs (Decidable (p.leB q = true))

/-- Rust `Path::extension()` on a file name: the part after the last `'.'`,
except that a lone leading `'.'` does not begin an extension. -/
def extensionOf (name : String) : Option RStr :=
  match splitOnChar '.' name.toList with
  | [] => none
  | [_] => none
  | p₀ :: p₁ :: ps => if p₀.isEmpty && ps.isEmpty then none else (p₁ :: ps).getLast?

/-- The `ext == "png"` test of `list_pngs_sorted`. -/
def isPngName (name : String) : Bool := extensionOf name == some "png".toList

/-- A snapshot of the filesystem as seen by `fs::read_dir`: for each
directory, either its list of entry names (in discovery order) or `none`
when reading the directory fails. -/
abbrev DirListing := RPath → Option (List String)

/-- The ways split-index construction can fail.  `panicCountMismatch` is
the `assert_eq!(di.len(), SAMPLES_PER_DATASET)` panic. -/
inductive BuildErr where
  | dirReadError
  | panicCountMismatch
deriving DecidableEq

/-- `list_pngs_sorted` (`index.rs` 223-246): keep entries with extension
`png`, take their full paths `dir.join(name)`, and sort.  `Vec::sort` is a
stable sort, so any stable sort (here insertion sort) produces the same
list. -/
def list_pngs_sorted (fs : DirListing) (dir : RPath) : Except BuildErr (List RPath) :=
  match fs dir with
  | none => .error .dirReadError
  | some names =>
    .ok (List.insertionSort RPath.le
      ((names.filter isPngName).map (fun n => dir.join (relFile n))))

/-- `DatasetIndex` (`index.rs` 248-252). -/
structure DatasetIndex where
  ds_path : RPath
  items : List (ObjectClass × RPath)
deriving DecidableEq

/-- The class subdirectory `ds_path.join(oc.to_string())`. -/
def classDir (ds_path : RPath) (oc : ObjectClass) : RPath :=
  ds_path.join (relFile oc.label)

/-- The `for oc in ObjectClass::iter()` loop of `load_index_from_dir`:
successively extend the item list with the sorted pngs of each class. -/
def collectItems (fs : DirListing) (ds_path : RPath) :
    List ObjectClass → Except BuildErr (List (ObjectClass × RPath))
  | [] => .ok []
  | oc :: rest =>
    match list_pngs_sorted fs (classDir ds_path oc) with
    | .error e => .error e
    | .ok ps =>
      match collectItems fs ds_path rest with
      | .error e => .error e
      | .ok tail => .ok (ps.map (fun p => (oc, p)) ++ tail)

/-- `DatasetIndex::len`. -/
def DatasetIndex.len (di : DatasetIndex) : Nat := di.items.length

/-- `DatasetIndex::load_index_from_dir` (`index.rs` 255-268), with the
final `assert_eq!(di.len(), SAMPLES_PER_DATASET)` panic modelled as
`panicCountMismatch`. -/
def DatasetIndex.load_index_from_dir (fs : DirListing) (ds_path : RPath) :
    Except BuildErr DatasetIndex :=
  match collectItems fs ds_path ObjectClass.all with
  | .error e => .error e
  | .ok items =>
    if items.length = SAMPLES_PER_DATASET
    then .ok { ds_path := ds_path, items := items }
    else .error .panicCountMismatch

/-- `DatasetIndex::index_to_class`; the out-of-range indexing panic is
modelled as `none`. -/
def DatasetIndex.index_to_class (di : DatasetIndex) (index : Nat) : Option ObjectClass :=
  (di.items.get? index).map (fun it => it.1)

/-- `DatasetIndex::index_to_path` (`index.rs` 308-314):
`self.ds_path.join(oc.to_string()).join(fname)` where `(oc, fname)` is the
stored catalogue entry; the out-of-range indexing panic is modelled as
`none`. -/
def DatasetIndex.index_to_path (di : DatasetIndex) (index : Nat) : Option RPath :=
  (di.items.get? index).map (fun it => ((classDir di.ds_path it.1).join it.2))

/-- Whether every class directory of the split is readable. -/
def allDirsReadable (fs : DirListing) (ds_path : RPath) : Prop :=
  ∀ oc ∈ ObjectClass.all, (fs (classDir ds_path oc)).isSome = true

/-- Number of `.png` entries of one class directory (0 when unreadable). -/
def classPngCount (fs : DirListing) (ds_path : RPath) (oc : ObjectClass) : Nat :=
  match fs (classDir ds_path oc) with
  | none => 0
  | some names => (names.filter isPngName).length

/-- Total number of catalogue entries the ten classes contribute. -/
def totalPngCount (fs : DirListing) (ds_path : RPath) : Nat :=
  (ObjectClass.all.map (classPngCount fs ds_path)).sum

/-! ## Images and batch packing (`images.rs`) -/

/-- An already-decoded RGB image as delivered by the external decoder
(`image::RgbImage` after `to_rgb8()`): dimensions plus the pixel rows in
row-major order, top row first (`img.pixels()` iteration order).  The
decoder guarantees exactly `width * height` pixels. -/
structure RgbImage where
  width : Nat
  height : Nat
  pixels : List (Nat × Nat × Nat)
  hpixels : pixels.length = width * height

/-- The ways batch loading can fail.  `panic*` constructors are Rust
panics (`unwrap`, `assert_eq!`, the `RgbImageBatch::new` shape asserts);
`decodeError` is the `?`-propagated decoder failure. -/
inductive BatchErr where
  | decodeError
  | panicEmptyPaths
  | panicIndexOut
  | panicDimMismatch
  | panicBadShape
deriving DecidableEq

/-- `load_rgbimage` (`images.rs` 14-32): the external decode, `?`-propagated. -/
def load_rgbimage {P : Type} (decode : P → Option RgbImage) (path : P) :
    Except BatchErr RgbImage :=
  match decode path with
  | none => .error .decodeError
  | some img => .ok img

/-- `RgbImageBatch` (`images.rs` 36-39). -/
structure RgbImageBatch where
  data : List Nat
  shape : List Nat
deriving DecidableEq

/-- `RgbImageBatch::new` (`images.rs` 51-60): the two shape `assert_eq!`s
are modelled as `panicBadShape`; the buffer starts empty. -/
def RgbImageBatch.new (shape : List Nat) : Except BatchErr RgbImageBatch :=
  if shape.length = 4 ∧ shape.get? 3 = some 3 then .ok { data := [], shape := shape }
  else .error .panicBadShape

/-- The byte stream of one image: its row-major pixels with `R,G,B`
interleaved per pixel, as pushed by `push_rgb_pixels`. -/
def rgbBytes (img : RgbImage) : List Nat :=
  img.pixels.flatMap (fun px => [px.1, px.2.1, px.2.2])

/-- `RgbImageBatch::push_rgb_pixels` (`images.rs` 71-80). -/
def push_rgb_pixels (batch : RgbImageBatch) (img : RgbImage) : RgbImageBatch :=
  { batch with data := batch.data ++ rgbBytes img }

/-- One iteration of the `for i in 1..batch_size` loop of `load_batch`
(`images.rs` 135-145): `paths.get(i).unwrap()`, decode, the
`assert_eq!(img.dimensions(), (width, height))` panic, then `on_img`. -/
def load_batch_step {T P : Type} (decode : P → Option RgbImage)
    (on_img : T → Nat → RgbImage → Except BatchErr T)
    (paths : List P) (width height : Nat) (b : T) (i : Nat) : Except BatchErr T :=
  match paths.get? i with
  | none => .error .panicIndexOut
  | some p =>
    match load_rgbimage decode p with
    | .error e => .error e
    | .ok img2 =>
      if img2.width = width ∧ img2.height = height then on_img b i img2
      else .error .panicDimMismatch

/-- `load_batch` (`images.rs` 116-148), generic in the batch type exactly
as in the source: `paths.first().unwrap()` panics on an empty slice, then
the loop `for i in 1..batch_size` runs `load_batch_step`. -/
def load_batch {T P : Type} (decode : P → Option RgbImage)
    (on_dims : List Nat → Except BatchErr T)
    (on_img : T → Nat → RgbImage → Except BatchErr T)
    (paths : List P) : Except BatchErr T :=
  let batch_size := paths.length
  match paths.head? with
  | none => .error .panicEmptyPaths
  | some path =>
    match load_rgbimage decode path with
    | .error e => .error e
    | .ok img =>
      match on_dims [batch_size, img.height, img.width, 3] with
      | .error e => .error e
      | .ok batch0 =>
        match on_img batch0 0 img with
        | .error e => .error e
        | .ok batch1 =>
          (List.range' 1 (batch_size - 1)).foldlM
            (load_batch_step decode on_img paths img.width img.height) batch1

/-- `load_bhwc_rgbimagebatch` (`images.rs` 159-171). -/
def load_bhwc_rgbimagebatch {P : Type} (decode : P → Option RgbImage) (paths : List P) :
    Except BatchErr RgbImageBatch :=
  load_batch decode (fun shape => RgbImageBatch.new shape)
    (fun batch _idx img => .ok (push_rgb_pixels batch img)) paths

instance {ε α : Type} [DecidableEq ε] [DecidableEq α] : DecidableEq (Except ε α)
  | .error e, .error f =>
    if h : e = f then .isTrue (by rw [h]) else .isFalse (fun hh => h (Except.error.inj hh))
  | .error _, .ok _ => .isFalse (fun hh => Except.noConfusion hh)
  | .ok _, .error _ => .isFalse (fun hh => Except.noConfusion hh)
  | .ok a, .ok b =>
    if h : a = b then .isTrue (by rw [h]) else .isFalse (fun hh => h (Except.ok.inj hh))

/-! ## Concrete data used to instantiate the theorems -/

/-- A 32x32 decoded image (constant pixels). -/
def img32 : RgbImage :=
  { width := 32, height := 32, pixels := List.replicate 1024 (7, 8, 9), hpixels := by rw [List.length_replicate] }

/-- A 28x28 decoded image (constant pixels). -/
def img28 : RgbImage :=
  { width := 28, height := 28, pixels := List.replicate 784 (1, 2, 3), hpixels := by rw [List.length_replicate] }

/-- A decoder for which every path decodes to `img32`. -/
def dec32 : Nat → Option RgbImage := fun _ => some img32

/-- A decoder mixing dimensions: path 0 is 32x32, all others 28x28. -/
def decMix : Nat → Option RgbImage := fun i => if i = 0 then some img32 else some img28

/-- A decoder that always fails. -/
def decNone : Nat → Option RgbImage := fun _ => none

/-- A relative split root. -/
def relTrainRoot : RPath := { absolute := false, components := ["cinic", "train"] }

/-- A directory snapshot in which every class directory lists exactly
`SAMPLES_PER_CLASS` png entries. -/
def fsRep : DirListing := fun _ => some (List.replicate SAMPLES_PER_CLASS "a.png")

/-- The catalogue `load_index_from_dir` builds for `fsRep`. -/
def diRepItems : List (ObjectClass × RPath) :=
  (ObjectClass.all.map (fun oc =>
    List.replicate SAMPLES_PER_CLASS (oc, (classDir relTrainRoot oc).join (relFile "a.png")))).flatten

/-- The `DatasetIndex` built from `fsRep` over `relTrainRoot`. -/
def diRep : DatasetIndex := { ds_path := relTrainRoot, items := diRepItems }

/-- The full path `list_pngs_sorted` stores for file `img0.png` of class
`airplane` under the relative root `relTrainRoot`. -/
def storedRel : RPath := (classDir relTrainRoot .airplane).join (relFile "img0.png")

/-- A `DatasetIndex` state over a relative root holding the entry
`(airplane, storedRel)` exactly as `load_index_from_dir` stores it. -/
def diRel : DatasetIndex := { ds_path := relTrainRoot, items := [(.airplane, storedRel)] }

/-- The simulation invariant between the pruned parser stack and the full
segment history: pruning at any query depth exposes exactly the nearest
preceding strictly-shallower entry. -/
def stackMatches (stack hist : List (Nat × RStr)) : Prop :=
  ∀ d, (stack.dropWhile (fun x => decide (d ≤ x.1))).head?
      = (hist.filter (fun x => decide (x.1 < d))).getLast?

/-- Relation between states of `processLine` and `specProcessLine`. -/
def statesRel (st : ParseState) (sst : SpecParseState) : Prop :=
  st.object_class = sst.object_class ∧ st.synset_map = sst.synset_map ∧
    stackMatches st.synset_stack sst.hist

/-- Relation between step results of the two parser forms. -/
def relExcept : Except ParseErr ParseState → Except ParseErr SpecParseState → Prop
  | .error e, .error f => e = f
  | .ok st, .ok sst => statesRel st sst
  | _, _ => False

/-! ## Helper lemmas -/

theorem exceptFoldlM_cons {ε σ α : Type} (f : σ → α → Except ε σ) (s : σ) (a : α) (l : List α) :
    List.foldlM f s (a :: l) =
      match f s a with
      | .error e => .error e
      | .ok s2 => List.foldlM f s2 l := by
  rw [List.foldlM_cons]
  cases f s a <;> rfl

theorem exceptMap_isOk {ε α β : Type} (f : α → β) (e : Except ε α) :
    (e.map f).isOk = e.isOk := by
  cases e <;> rfl

/-- A blank (all-whitespace) line makes `parse_synset_map` fail from any
state: it is treated as a class header, and the empty trimmed token is not
a class label. -/
theorem parseFold_blank_fails (lines : List RStr) (st : ParseState)
    (hblank : ∃ l ∈ lines, trimChars l = []) :
    (lines.foldlM processLine st).isOk = false := by
  induction lines generalizing st with
  | nil => rcases hblank with ⟨l, hl, _⟩; cases hl
  | cons a as ih =>
    rw [exceptFoldlM_cons]
    rcases hblank with ⟨l, hl, hfl⟩
    rcases List.mem_cons.mp hl with h | h
    · subst h
      have hstep : processLine st l = .error (.badClassHeader []) := by
        simp only [processLine, hfl]
        rfl
      rw [hstep]
      rfl
    · cases hstep : processLine st a with
      | error e => rfl
      | ok st2 => exact ih st2 ⟨l, h, hfl⟩

/-- Claim C6 (counterexample): inserting a blank line into an accepted
hierarchy text makes parsing fail, so blank lines are not ignored. -/
theorem claim_C6_counterexample :
    (parse_synset_map_text "dog\n----n9: cujo").isOk = true ∧
    (parse_synset_map_text "dog\n\n----n9: cujo").isOk = false := by
  constructor <;> rfl

/-- Claim C6 (amended): a trailing line terminator after the final line is
harmless (the line iterator yields no extra line for it), but any blank
(empty or whitespace-only) line in the input is treated as a class header
whose label fails to parse, so `parse_synset_map` returns an error for
every input containing one. -/
theorem claim_C6 (lines : List String) (hblank : ∃ l ∈ lines, trimChars l.toList = []) :
    (parse_synset_map lines).isOk = false := by
  rw [parse_synset_map, exceptMap_isOk]
  rcases hblank with ⟨l, hl, hfl⟩
  exact parseFold_blank_fails _ _ ⟨l.toList, List.mem_map_of_mem _ hl, hfl⟩

theorem claim_C6_witness : (parse_synset_map ["dog", "", "----n9: cujo"]).isOk = false :=
  claim_C6 ["dog", "", "----n9: cujo"] ⟨"", by simp, rfl⟩

/-- Claim C7: if some line of the input is a data line (its trimmed form
starts with a dash) and no earlier line is a valid class header, then
`parse_synset_map` fails; no mapping is produced. -/
theorem claim_C7 (lines : List String) (i : Nat) (li : String)
    (hget : lines.get? i = some li)
    (hdata : startsWithDash (trimChars li.toList) = true)
    (hnohdr : ∀ j lj, j < i → lines.get? j = some lj →
      ¬(startsWithDash (trimChars lj.toList) = false ∧
        (objectClassFromChars (trimChars lj.toList)).isSome = true)) :
    (parse_synset_map lines).isOk = false := by
  rw [parse_synset_map, exceptMap_isOk, parseSynsetLines]
  cases lines with
  | nil => simp at hget
  | cons a as =>
    rw [List.map_cons, exceptFoldlM_cons]
    have hfirst : ∃ e, processLine (⟨none, [], []⟩ : ParseState) a.toList = .error e := by
      cases i with
      | zero =>
        have ha : a = li := by simpa using hget
        subst ha
        refine ⟨.panicEntryBeforeClass, ?_⟩
        simp only [processLine, hdata]
        rfl
      | succ j =>
        cases hd : startsWithDash (trimChars a.toList) with
        | true =>
          refine ⟨.panicEntryBeforeClass, ?_⟩
          simp only [processLine, hd]
          rfl
        | false =>
          have hnone : objectClassFromChars (trimChars a.toList) = none := by
            have := hnohdr 0 a (Nat.succ_pos j) (by simp)
            cases hoc : objectClassFromChars (trimChars a.toList) with
            | none => rfl
            | some oc => exact absurd ⟨hd, by rw [hoc]; rfl⟩ this
          refine ⟨.badClassHeader (trimChars a.toList), ?_⟩
          simp only [processLine, hd, hnone]
          rfl
    rcases hfirst with ⟨e, he⟩
    rw [he]
    rfl

theorem claim_C7_witness : (parse_synset_map ["-n1: x"]).isOk = false :=
  claim_C7 ["-n1: x"] 0 "-n1: x" rfl rfl
    (fun j _ hj _ => absurd hj (Nat.not_lt_zero j))

theorem mem_dropWhile_of_mem {α : Type} (p : α → Bool) (x : α) (hpx : p x = false) :
    ∀ l : List α, x ∈ l → x ∈ l.dropWhile p
  | a :: as, hx => by
    rw [List.dropWhile_cons]
    cases ha : p a with
    | true =>
      rw [if_pos rfl]
      rcases List.mem_cons.mp hx with h1 | h1
      · rw [h1] at hpx; rw [hpx] at ha; cases ha
      · exact mem_dropWhile_of_mem p x hpx as h1
    | false =>
      simpa using hx

theorem splitFirst_isSome_of_mem (c : Char) :
    ∀ l : RStr, c ∈ l → (splitFirst c l).isSome = true
  | a :: as, h => by
    rw [splitFirst]
    by_cases hac : a = c
    · simp [hac]
    · rw [if_neg hac]
      have hmem : c ∈ as := by
        rcases List.mem_cons.mp h with h1 | h1
        · exact absurd h1.symm hac
        · exact h1
      have hs := splitFirst_isSome_of_mem c as hmem
      cases hsp : splitFirst c as with
      | none => rw [hsp] at hs; cases hs
      | some p => rfl

/-- If every data line contains a colon, a single parse step never hits
the `find(':').unwrap()` panic. -/
theorem processLine_ne_noColon (st : ParseState) (l : RStr)
    (hcolon : startsWithDash (trimChars l) = true → ':' ∈ trimChars l) :
    processLine st l ≠ .error .panicNoColon := by
  unfold processLine
  cases hd : startsWithDash (trimChars l) with
  | false =>
    simp only [hd, Bool.false_eq_true, not_false_eq_true, if_pos]
    cases objectClassFromChars (trimChars l) with
    | none => intro hh; cases hh
    | some oc => intro hh; cases hh
  | true =>
    simp only [hd, not_true_eq_false, if_neg, Bool.true_eq_false]
    cases st.object_class with
    | none => intro hh; cases hh
    | some oc =>
      have hmem : ':' ∈ (trimChars l).dropWhile (fun c => c == '-') :=
        mem_dropWhile_of_mem _ ':' rfl _ (hcolon hd)
      have hsome := splitFirst_isSome_of_mem ':' _ hmem
      cases hsp : splitFirst ':' ((trimChars l).dropWhile (fun c => c == '-')) with
      | none => rw [hsp] at hsome; cases hsome
      | some p =>
        simp only [hsp]
        intro hh; cases hh

theorem parseFold_ne_noColon (lines : List RStr) (st : ParseState)
    (h : ∀ l ∈ lines, startsWithDash (trimChars l) = true → ':' ∈ trimChars l) :
    lines.foldlM processLine st ≠ .error .panicNoColon := by
  induction lines generalizing st with
  | nil => intro hh; cases hh
  | cons a as ih =>
    rw [exceptFoldlM_cons]
    cases hstep : processLine st a with
    | error e =>
      intro hh
      apply processLine_ne_noColon st a (h a (List.mem_cons_self a as))
      rw [hstep]
      exact hh
    | ok st2 => exact ih st2 (fun l hl => h l (List.mem_cons_of_mem a hl))

/-- Claim C10: a trimmed line that begins with a dash but has no colon
makes `parse_synset_map` hit the `line.find(':').unwrap()` panic; when
every data line contains a colon that panic is unreachable. -/
theorem claim_C10 :
    (∀ lines : List String,
      (∀ l ∈ lines, startsWithDash (trimChars l.toList) = true → ':' ∈ trimChars l.toList) →
      parse_synset_map lines ≠ .error .panicNoColon)
    ∧ parse_synset_map ["dog", "--n10"] = .error .panicNoColon := by
  constructor
  · intro lines h
    rw [parse_synset_map]
    intro hh
    have hfold : parseSynsetLines (lines.map String.toList) = .error .panicNoColon := by
      cases hp : parseSynsetLines (lines.map String.toList) <;> rw [hp] at hh
      · injection hh with h1; rw [h1]
      · cases hh
    apply parseFold_ne_noColon (lines.map String.toList) _ ?_ hfold
    intro l hl
    rcases List.mem_map.mp hl with ⟨s, hs, rfl⟩
    exact h s hs
  · rfl

theorem claim_C10_witness : parse_synset_map ["dog", "--n1: x"] ≠ .error .panicNoColon :=
  claim_C10.1 ["dog", "--n1: x"] (by decide)

/-- `trim` is the identity on a line with non-whitespace first and last
characters. -/
theorem trimChars_eq_of_ends (x y : Char) (t : RStr)
    (hx : isRustWhitespace x = false) (hy : isRustWhitespace y = false) :
    trimChars (x :: (t ++ [y])) = x :: (t ++ [y]) := by
  unfold trimChars
  rw [List.dropWhile_cons, hx]
  simp only [Bool.false_eq_true, if_false]
  rw [← List.cons_append, List.reverse_append, List.reverse_singleton,
    List.singleton_append, List.dropWhile_cons, hy]
  simp only [Bool.false_eq_true, if_false]
  rw [List.reverse_cons, List.reverse_reverse, List.cons_append]

/-- `trim_start_matches('-')` on a dash prefix followed by a non-dash-headed
tail removes exactly the prefix. -/
theorem dropDash_append (dashes t : RStr) (hall : ∀ c ∈ dashes, c = '-')
    (ht : t.head? ≠ some '-') :
    (dashes ++ t).dropWhile (fun c => c == '-') = t := by
  induction dashes with
  | nil =>
    cases t with
    | nil => rfl
    | cons a as =>
      have ha : a ≠ '-' := fun h => ht (by rw [h]; rfl)
      rw [List.nil_append, List.dropWhile_cons]
      simp [ha]
  | cons d ds ih =>
    have hd : d = '-' := hall d (List.mem_cons_self d ds)
    subst hd
    rw [List.cons_append, List.dropWhile_cons, if_pos (by rfl)]
    exact ih (fun c hc => hall c (List.mem_cons_of_mem _ hc))

/-- Splitting `id ++ [':']` at the first colon, when `id` has none. -/
theorem splitFirst_append_colon (id : RStr) (hid : ':' ∉ id) :
    splitFirst ':' (id ++ [':']) = some (id, []) := by
  induction id with
  | nil => rfl
  | cons a as ih =>
    have ha : a ≠ ':' := fun h => hid (by rw [h]; exact List.mem_cons_self _ _)
    rw [List.cons_append, splitFirst, if_neg ha,
      ih (fun h => hid (List.mem_cons_of_mem a h))]
    rfl

/-- Claim C8: a data line whose alias segment after the first `':'` is
empty produces exactly one alias, the empty string (splitting the empty
string on `','` yields one empty fragment); stated for an arbitrary
parser state and data line of shape `<dashes><id>:`, together with the
concrete parse of `["dog", "----n123:"]`. -/
theorem claim_C8 :
    (∀ (st : ParseState) (oc : ObjectClass) (dashes id : RStr),
      st.object_class = some oc →
      dashes ≠ [] → (∀ c ∈ dashes, c = '-') →
      id.head? ≠ some '-' → ':' ∉ id →
      processLine st (dashes ++ id ++ [':']) =
        .ok { object_class := some oc,
              synset_stack := (dashes.length, id) ::
                st.synset_stack.dropWhile (fun p => decide (dashes.length ≤ p.1)),
              synset_map := (id,
                { synset_id := id, object_class := oc,
                  synset_base_id := ((st.synset_stack.dropWhile
                    (fun p => decide (dashes.length ≤ p.1))).head?).map (fun p => p.2),
                  aliases := [[]] }) :: st.synset_map })
    ∧ parse_synset_map ["dog", "----n123:"] =
        .ok [("n123".toList,
              { synset_id := "n123".toList, object_class := .dog,
                synset_base_id := none, aliases := [[]] })] := by
  constructor
  · intro st oc dashes id hoc hne hall hhd hcolon
    obtain ⟨d, ds, rfl⟩ : ∃ d ds, dashes = d :: ds := by
      cases dashes with
      | nil => exact absurd rfl hne
      | cons d ds => exact ⟨d, ds, rfl⟩
    have hd : d = '-' := hall d (List.mem_cons_self d ds)
    subst hd
    have htail : ('-' :: ds) ++ id ++ [':'] = '-' :: ((ds ++ id) ++ [':']) := by
      simp [List.append_assoc]
    have htrim : trimChars (('-' :: ds) ++ id ++ [':']) = ('-' :: ds) ++ id ++ [':'] := by
      rw [htail]
      exact trimChars_eq_of_ends '-' ':' (ds ++ id) rfl rfl
    have hdrop : ((('-' :: ds) ++ id ++ [':'])).dropWhile (fun c => c == '-') = id ++ [':'] := by
      rw [List.append_assoc]
      apply dropDash_append _ _ hall
      cases id with
      | nil => simp
      | cons a as =>
        intro h
        apply hhd
        rw [List.cons_append, List.head?_cons] at h
        rw [List.head?_cons]
        exact h
    have hdepth : (('-' :: ds) ++ id ++ [':']).length - (id ++ [':']).length
        = ('-' :: ds).length := by
      simp [List.length_append]
      omega
    have hdash : startsWithDash (('-' :: ds) ++ id ++ [':']) = true := by
      rw [htail]; rfl
    simp only [processLine, htrim, hdrop, hdepth, hdash]
    rw [if_neg (by simp)]
    rw [hoc, splitFirst_append_colon id hcolon]
    rfl
  · rfl

theorem claim_C8_witness :
    processLine (⟨some .dog, [], []⟩ : ParseState) ("----".toList ++ "n123".toList ++ [':']) =
      .ok { object_class := some .dog,
            synset_stack := [(4, "n123".toList)],
            synset_map := [("n123".toList,
              { synset_id := "n123".toList, object_class := .dog,
                synset_base_id := none, aliases := [[]] })] } :=
  claim_C8.1 ⟨some .dog, [], []⟩ .dog "----".toList "n123".toList rfl
    (by decide) (by decide) (by decide) (by decide)

theorem dropWhile_dropWhile {α : Type} (p q : α → Bool) (h : ∀ a, q a = true → p a = true) :
    ∀ l : List α, (l.dropWhile q).dropWhile p = l.dropWhile p
  | [] => rfl
  | a :: as => by
    rw [List.dropWhile_cons]
    cases hq : q a with
    | true =>
      rw [if_pos rfl, dropWhile_dropWhile p q h as, List.dropWhile_cons, h a hq, if_pos rfl]
    | false =>
      rw [if_neg (by simp)]

theorem stackMatches_nil : stackMatches [] [] := fun _ => rfl

theorem stackMatches_push (stack hist : List (Nat × RStr)) (depth : Nat) (id : RStr)
    (h : stackMatches stack hist) :
    stackMatches ((depth, id) :: stack.dropWhile (fun x => decide (depth ≤ x.1)))
      (hist ++ [(depth, id)]) := by
  intro d
  rw [List.filter_append]
  by_cases hd : depth < d
  · have hfil : List.filter (fun x => decide (x.1 < d)) [(depth, id)] = [(depth, id)] := by
      simp [hd]
    rw [hfil, List.getLast?_concat, List.dropWhile_cons]
    rw [if_neg (by simp; omega)]
    rfl
  · have hfil : List.filter (fun x => decide (x.1 < d)) [(depth, id)] = [] := by
      simp [hd]
    rw [hfil, List.append_nil, List.dropWhile_cons]
    rw [if_pos (by simp; omega)]
    rw [dropWhile_dropWhile _ _ (fun a ha => by simp at ha ⊢; omega) stack]
    exact h d

/-- One step of the implementation simulates one step of the reference
parser: identical error behaviour, and related success states. -/
theorem processLine_rel (st : ParseState) (sst : SpecParseState)
    (h : statesRel st sst) (l : RStr) :
    relExcept (processLine st l) (specProcessLine sst l) := by
  obtain ⟨hoc, hmap, hstack⟩ := h
  unfold processLine specProcessLine
  cases hd : startsWithDash (trimChars l) with
  | false =>
    simp only [hd, Bool.false_eq_true, not_false_eq_true, if_pos]
    cases objectClassFromChars (trimChars l) with
    | none => exact rfl
    | some oc => exact ⟨rfl, hmap, stackMatches_nil⟩
  | true =>
    simp only [hd, not_true_eq_false, if_neg, Bool.true_eq_false]
    rw [← hoc]
    cases ho : st.object_class with
    | none => exact rfl
    | some oc =>
      cases hsp : splitFirst ':' ((trimChars l).dropWhile (fun c => c == '-')) with
      | none => exact rfl
      | some pr =>
        obtain ⟨synset_id, rest⟩ := pr
        refine ⟨rfl, ?_, ?_⟩
        · have hpar := hstack ((trimChars l).length
            - ((trimChars l).dropWhile (fun c => c == '-')).length)
          rw [hmap]
          unfold nearestShallower
          rw [← hpar]
        · exact stackMatches_push st.synset_stack sst.hist _ synset_id hstack

/-- Sanity check: the repository's own unit-test example, first node. -/
theorem parse_synset_map_sanity :
    parse_synset_map ["dog", "----n123: good boy"] =
      .ok [("n123".toList,
            { synset_id := "n123".toList, object_class := .dog,
              synset_base_id := none, aliases := ["good boy".toList] })] := by
  rfl

/-- The implementation fold and the reference fold stay related from
related states. -/
theorem parseFold_rel (lines : List RStr) (st : ParseState) (sst : SpecParseState)
    (h : statesRel st sst) :
    relExcept (lines.foldlM processLine st) (lines.foldlM specProcessLine sst) := by
  induction lines generalizing st sst with
  | nil => exact h
  | cons a as ih =>
    rw [exceptFoldlM_cons, exceptFoldlM_cons]
    have hr := processLine_rel st sst h a
    cases hp : processLine st a with
    | error e =>
      cases hsp : specProcessLine sst a with
      | error f => rw [hp, hsp] at hr; exact hr
      | ok sst2 => rw [hp, hsp] at hr; exact hr.elim
    | ok st2 =>
      cases hsp : specProcessLine sst a with
      | error f => rw [hp, hsp] at hr; exact hr.elim
      | ok sst2 => rw [hp, hsp] at hr; exact ih st2 sst2 hr

/-- Claim C1: `parse_synset_map` computes exactly the reference parse in
which every data-line node's parent is the nearest preceding data line
(since the last class header) of strictly smaller dash-count depth, and
`none` when no such line exists: popping the depth stack while its top is
at depth >= the current depth realises that rule. -/
theorem claim_C1 (lines : List String) :
    parse_synset_map lines = parse_synset_map_nearest lines := by
  have h := parseFold_rel (lines.map String.toList)
    (⟨none, [], []⟩ : ParseState) (⟨none, [], []⟩ : SpecParseState)
    ⟨rfl, rfl, stackMatches_nil⟩
  rw [parse_synset_map, parse_synset_map_nearest, parseSynsetLines, specParseSynsetLines]
  cases hp : List.foldlM processLine (⟨none, [], []⟩ : ParseState) (lines.map String.toList) with
  | error e =>
    cases hsp : List.foldlM specProcessLine (⟨none, [], []⟩ : SpecParseState)
        (lines.map String.toList) with
    | error f => rw [hp, hsp] at h; rw [h]; rfl
    | ok sst => rw [hp, hsp] at h; exact h.elim
  | ok st =>
    cases hsp : List.foldlM specProcessLine (⟨none, [], []⟩ : SpecParseState)
        (lines.map String.toList) with
    | error f => rw [hp, hsp] at h; exact h.elim
    | ok sst =>
      rw [hp, hsp] at h
      simp only [Except.map]
      rw [h.2.1]

theorem length_insertionSort {α : Type} (r : α → α → Prop) [DecidableRel r] (l : List α) :
    (List.insertionSort r l).length = l.length :=
  (List.perm_insertionSort r l).length_eq

/-- Split-index collection succeeds exactly when every class directory in
the list is readable. -/
theorem collectItems_isOk (fs : DirListing) (dsp : RPath) :
    ∀ ocs : List ObjectClass,
      (collectItems fs dsp ocs).isOk = true ↔
        ∀ oc ∈ ocs, (fs (classDir dsp oc)).isSome = true
  | [] => by simp [collectItems, Except.isOk, Except.toBool]
  | oc :: rest => by
    rw [collectItems]
    cases hl : list_pngs_sorted fs (classDir dsp oc) with
    | error e =>
      have hno : (fs (classDir dsp oc)).isSome = false := by
        cases hf : fs (classDir dsp oc) with
        | none => rfl
        | some names => rw [list_pngs_sorted, hf] at hl; cases hl
      apply iff_of_false (by intro hh; exact Bool.noConfusion hh)
      intro hall
      have := hall oc (List.mem_cons_self oc rest)
      rw [hno] at this
      cases this
    | ok ps =>
      have hoc : (fs (classDir dsp oc)).isSome = true := by
        cases hf : fs (classDir dsp oc) with
        | none => rw [list_pngs_sorted, hf] at hl; cases hl
        | some names => rfl
      cases hc : collectItems fs dsp rest with
      | error e =>
        have hrest := (collectItems_isOk fs dsp rest)
        rw [hc] at hrest
        apply iff_of_false (by intro hh; exact Bool.noConfusion hh)
        intro hall
        have : False := by
          have h2 := hrest.mpr (fun oc2 h2 => hall oc2 (List.mem_cons_of_mem oc h2))
          cases h2
        exact this
      | ok tail =>
        have hrest := (collectItems_isOk fs dsp rest)
        rw [hc] at hrest
        apply iff_of_true rfl
        intro oc2 h2
        rcases List.mem_cons.mp h2 with h3 | h3
        · rw [h3]; exact hoc
        · exact hrest.mp rfl oc2 h3

/-- Length of a successfully collected catalogue: the sum of the per-class
png counts. -/
theorem collectItems_length (fs : DirListing) (dsp : RPath) :
    ∀ (ocs : List ObjectClass) (items : List (ObjectClass × RPath)),
      collectItems fs dsp ocs = .ok items →
      items.length = (ocs.map (classPngCount fs dsp)).sum
  | [], items => by
    intro h
    injection h with h
    rw [← h]
    rfl
  | oc :: rest, items => by
    intro h
    rw [collectItems] at h
    cases hl : list_pngs_sorted fs (classDir dsp oc) with
    | error e => rw [hl] at h; cases h
    | ok ps =>
      rw [hl] at h
      cases hc : collectItems fs dsp rest with
      | error e => rw [hc] at h; cases h
      | ok tail =>
        rw [hc] at h
        injection h with h
        have htail := collectItems_length fs dsp rest tail hc
        have hps : ps.length = classPngCount fs dsp oc := by
          cases hf : fs (classDir dsp oc) with
          | none => rw [list_pngs_sorted, hf] at hl; cases hl
          | some names =>
            rw [list_pngs_sorted, hf] at hl
            injection hl with hl
            rw [← hl, length_insertionSort, List.length_map, classPngCount, hf]
        rw [← h, List.length_append, List.length_map, hps, htail, List.map_cons, List.sum_cons]

/-- Claim C2: `load_index_from_dir` succeeds exactly when all ten class
directories are readable and contribute 90000 entries in total, and every
successfully constructed index has length `SAMPLES_PER_DATASET = 90000`;
any other total (e.g. one missing image, 89999) fails construction. -/
theorem claim_C2 (fs : DirListing) (ds_path : RPath) :
    ((DatasetIndex.load_index_from_dir fs ds_path).isOk = true ↔
      (allDirsReadable fs ds_path ∧ totalPngCount fs ds_path = SAMPLES_PER_DATASET))
    ∧ (∀ di, DatasetIndex.load_index_from_dir fs ds_path = .ok di →
        di.len = SAMPLES_PER_DATASET) := by
  constructor
  · rw [DatasetIndex.load_index_from_dir]
    cases hc : collectItems fs ds_path ObjectClass.all with
    | error e =>
      apply iff_of_false (by intro hh; exact Bool.noConfusion hh)
      intro hh
      have := (collectItems_isOk fs ds_path ObjectClass.all).mpr hh.1
      rw [hc] at this
      cases this
    | ok items =>
      dsimp only []
      have hread : allDirsReadable fs ds_path := by
        apply (collectItems_isOk fs ds_path ObjectClass.all).mp
        rw [hc]
        rfl
      have hlen : items.length = totalPngCount fs ds_path :=
        collectItems_length fs ds_path ObjectClass.all items hc
      by_cases hl : items.length = SAMPLES_PER_DATASET
      · rw [if_pos hl]
        exact iff_of_true rfl ⟨hread, by rw [← hlen, hl]⟩
      · rw [if_neg hl]
        apply iff_of_false (by intro hh; exact Bool.noConfusion hh)
        intro hh
        exact hl (by rw [hlen, hh.2])
  · intro di hdi
    rw [DatasetIndex.load_index_from_dir] at hdi
    cases hc : collectItems fs ds_path ObjectClass.all with
    | error e => rw [hc] at hdi; cases hdi
    | ok items =>
      rw [hc] at hdi
      dsimp only [] at hdi
      by_cases hl : items.length = SAMPLES_PER_DATASET
      · rw [if_pos hl] at hdi
        injection hdi with hdi
        rw [← hdi]
        exact hl
      · rw [if_neg hl] at hdi
        cases hdi

theorem strListLe_refl (l : List String) : strListLe l l = true := by
  induction l with
  | nil => rfl
  | cons a as ih => rw [strListLe, if_pos rfl]; exact ih

theorem RPath.le_refl (p : RPath) : RPath.le p p := by
  unfold RPath.le RPath.leB
  rw [if_pos rfl]
  exact strListLe_refl p.components

theorem sorted_replicate {α : Type} (r : α → α → Prop) (n : Nat) (a : α) (h : r a a) :
    List.Sorted r (List.replicate n a) :=
  List.pairwise_replicate.mpr (Or.inr h)

theorem filter_replicate_of_pos {α : Type} (p : α → Bool) (n : Nat) (a : α) (h : p a = true) :
    (List.replicate n a).filter p = List.replicate n a :=
  List.filter_eq_self.mpr (fun x hx => by rw [List.eq_of_mem_replicate hx]; exact h)

/-- Evaluating `list_pngs_sorted` on the replicated snapshot. -/
theorem list_pngs_sorted_fsRep (dir : RPath) :
    list_pngs_sorted fsRep dir =
      .ok (List.replicate SAMPLES_PER_CLASS (dir.join (relFile "a.png"))) := by
  show Except.ok _ = _
  rw [filter_replicate_of_pos isPngName _ _ (by rfl), List.map_replicate]
  rw [List.Sorted.insertionSort_eq
    (sorted_replicate RPath.le _ _ (RPath.le_refl (dir.join (relFile "a.png"))))]

/-- Evaluating the per-class collection on the replicated snapshot. -/
theorem collectItems_fsRep (dsp : RPath) :
    ∀ ocs : List ObjectClass,
      collectItems fsRep dsp ocs =
        .ok ((ocs.map (fun oc => List.replicate SAMPLES_PER_CLASS
          (oc, (classDir dsp oc).join (relFile "a.png")))).flatten)
  | [] => rfl
  | oc :: rest => by
    rw [collectItems, list_pngs_sorted_fsRep, collectItems_fsRep dsp rest]
    dsimp only []
    rw [List.map_replicate, List.map_cons, List.flatten_cons]

/-- The replicated snapshot yields a successful construction. -/
theorem load_fsRep :
    DatasetIndex.load_index_from_dir fsRep relTrainRoot = .ok diRep := by
  rw [DatasetIndex.load_index_from_dir, collectItems_fsRep relTrainRoot ObjectClass.all]
  dsimp only []
  rw [if_pos ?hlen]
  case hlen =>
    simp only [ObjectClass.all, List.map_cons, List.map_nil, List.flatten_cons,
      List.flatten_nil, List.length_append, List.length_replicate, List.length_nil]
    rfl
  rfl

theorem claim_C2_witness :
    DatasetIndex.load_index_from_dir fsRep relTrainRoot = .ok diRep ∧
      diRep.len = SAMPLES_PER_DATASET :=
  ⟨load_fsRep, (claim_C2 fsRep relTrainRoot).2 diRep load_fsRep⟩

/-- Claim C4 (code bug): the catalogue stores the full discovered path
`ds_path/class/name` (not a filename relative to the class directory), and
`index_to_path` joins `ds_path/class` onto it again.  For a relative split
root the result duplicates the root and class components and is not the
stored file's path; for an absolute root `Path::join`'s replace-on-absolute
semantics masks the bug and the stored path is returned unchanged.  The
third conjunct evaluates the duplicated path concretely. -/
theorem claim_C4 :
    (∀ (ds_path : RPath) (oc : ObjectClass) (name : String),
      ds_path.absolute = false →
      DatasetIndex.index_to_path
          { ds_path := ds_path, items := [(oc, (classDir ds_path oc).join (relFile name))] } 0
        ≠ some ((classDir ds_path oc).join (relFile name)))
    ∧ (∀ (ds_path : RPath) (oc : ObjectClass) (name : String),
      ds_path.absolute = true →
      DatasetIndex.index_to_path
          { ds_path := ds_path, items := [(oc, (classDir ds_path oc).join (relFile name))] } 0
        = some ((classDir ds_path oc).join (relFile name)))
    ∧ DatasetIndex.index_to_path diRel 0 =
        some { absolute := false,
               components := ["cinic", "train", "airplane",
                              "cinic", "train", "airplane", "img0.png"] } := by
  refine ⟨?_, ?_, ?_⟩
  · intro ds_path oc name habs heq
    simp [DatasetIndex.index_to_path, classDir, RPath.join, relFile, habs] at heq
    have hlen := congrArg List.length heq
    simp [List.length_append] at hlen
  · intro ds_path oc name habs
    simp [DatasetIndex.index_to_path, classDir, RPath.join, relFile, habs]
  · rfl

theorem claim_C4_witness :
    DatasetIndex.index_to_path
        { ds_path := relTrainRoot,
          items := [(.airplane, (classDir relTrainRoot .airplane).join (relFile "img0.png"))] } 0
      ≠ some ((classDir relTrainRoot .airplane).join (relFile "img0.png")) :=
  claim_C4.1 relTrainRoot .airplane "img0.png" rfl

theorem rgbBytes_length (img : RgbImage) :
    (rgbBytes img).length = img.width * img.height * 3 := by
  rw [rgbBytes, List.length_flatMap]
  have hmap : List.map (List.length ∘ fun px => [px.1, px.2.1, px.2.2]) img.pixels
      = List.map (fun _ => 3) img.pixels :=
    List.map_congr_left (fun a _ => rfl)
  rw [hmap, List.map_const', List.sum_replicate, smul_eq_mul, img.hpixels]

/-- The tail loop of `load_bhwc_rgbimagebatch` on well-dimensioned inputs
appends the byte streams of the remaining images in order. -/
theorem bhwc_loop_ok {P : Type} (decode : P → Option RgbImage) (paths : List P)
    (imgs : List RgbImage) (w h : Nat)
    (hdec : paths.map decode = imgs.map some)
    (hdims : ∀ img ∈ imgs, img.width = w ∧ img.height = h) :
    ∀ (k i : Nat) (b : RgbImageBatch), i + k = paths.length →
      (List.range' i k).foldlM
          (load_batch_step decode (fun batch _idx img => .ok (push_rgb_pixels batch img)) paths w h) b
        = .ok { data := b.data ++ ((imgs.drop i).map rgbBytes).flatten, shape := b.shape } := by
  have hlen : paths.length = imgs.length := by
    have h1 := congrArg List.length hdec
    simpa using h1
  intro k
  induction k with
  | zero =>
    intro i b hik
    have hd : imgs.drop i = [] := List.drop_eq_nil_of_le (by omega)
    rw [List.range', List.foldlM_nil, hd, List.map_nil, List.flatten_nil, List.append_nil]
    rfl
  | succ k ih =>
    intro i b hik
    rw [List.range'_succ, exceptFoldlM_cons]
    have hi : i < paths.length := by omega
    obtain ⟨p, hp⟩ : ∃ p, paths.get? i = some p := by
      cases hp : paths.get? i with
      | none => rw [List.get?_eq_none] at hp; omega
      | some p => exact ⟨p, rfl⟩
    obtain ⟨img, himg⟩ : ∃ img, imgs.get? i = some img := by
      cases hq : imgs.get? i with
      | none => rw [List.get?_eq_none] at hq; omega
      | some img => exact ⟨img, rfl⟩
    have hdecp : decode p = some img := by
      have h1 := congrArg (fun l => l.get? i) hdec
      simp only [List.get?_map, hp, himg, Option.map_some] at h1
      simpa using h1
    have hw := hdims img (List.get?_mem himg)
    have hstep : load_batch_step decode
        (fun batch _idx img => .ok (push_rgb_pixels batch img)) paths w h b i
        = .ok (push_rgb_pixels b img) := by
      rw [load_batch_step, hp]
      dsimp only []
      rw [load_rgbimage, hdecp]
      dsimp only []
      rw [if_pos hw]
    rw [hstep]
    dsimp only []
    rw [ih (i + 1) (push_rgb_pixels b img) (by omega)]
    have hdrop : imgs.drop i = img :: imgs.drop (i + 1) := by
      have hlt : i < imgs.length := by omega
      rw [List.drop_eq_getElem_cons hlt]
      have h4 : imgs[i]? = some img := by
        rw [← List.get?_eq_getElem?]
        exact himg
      have h5 := List.getElem?_eq_getElem hlt
      rw [h4] at h5
      injection h5 with h5
      rw [← h5]
    rw [hdrop, List.map_cons, List.flatten_cons, push_rgb_pixels]
    simp [List.append_assoc]

/-- Claim C3: for a non-empty batch whose images all decode to the same
dimensions (w, h), the packed batch has shape `[n, h, w, 3]` and its data
buffer is exactly the image-major concatenation of the row-major
R,G,B-interleaved pixel bytes, of length `n*h*w*3`. -/
theorem claim_C3 {P : Type} (decode : P → Option RgbImage) (paths : List P)
    (imgs : List RgbImage) (w h : Nat)
    (hne : paths ≠ [])
    (hdec : paths.map decode = imgs.map some)
    (hdims : ∀ img ∈ imgs, img.width = w ∧ img.height = h) :
    load_bhwc_rgbimagebatch decode paths
      = .ok { data := (imgs.map rgbBytes).flatten, shape := [paths.length, h, w, 3] }
    ∧ ((imgs.map rgbBytes).flatten).length = paths.length * h * w * 3 := by
  have hlen : paths.length = imgs.length := by
    have h1 := congrArg List.length hdec
    simpa using h1
  constructor
  · obtain ⟨p, ps, rfl⟩ := List.exists_cons_of_ne_nil hne
    obtain ⟨img0, irest, rfl⟩ : ∃ img0 irest, imgs = img0 :: irest := by
      cases imgs with
      | nil => simp at hlen
      | cons img0 irest => exact ⟨img0, irest, rfl⟩
    have hdec0 : decode p = some img0 := by
      have h1 := congrArg (fun l => l.get? 0) hdec
      simpa using h1
    obtain ⟨hw0, hh0⟩ := hdims img0 (List.mem_cons_self img0 irest)
    rw [load_bhwc_rgbimagebatch, load_batch]
    dsimp only [List.head?_cons]
    rw [load_rgbimage, hdec0]
    dsimp only []
    have hnew : RgbImageBatch.new [(p :: ps).length, img0.height, img0.width, 3]
        = .ok { data := [], shape := [(p :: ps).length, img0.height, img0.width, 3] } := by
      rw [RgbImageBatch.new, if_pos]
      exact ⟨rfl, rfl⟩
    rw [hnew]
    dsimp only []
    rw [bhwc_loop_ok decode (p :: ps) (img0 :: irest) img0.width img0.height hdec
      (fun img hm => by
        obtain ⟨hw, hh⟩ := hdims img hm
        rw [hw, hh, hw0, hh0]
        exact ⟨rfl, rfl⟩)
      ((p :: ps).length - 1) 1 _ (by simp; omega)]
    rw [hw0, hh0]
    dsimp only [push_rgb_pixels]
    rw [List.drop_one, List.tail_cons, List.map_cons, List.flatten_cons]
    simp
  · rw [List.length_flatten, List.map_map]
    have hmap : List.map (List.length ∘ rgbBytes) imgs = List.map (fun _ => h * w * 3) imgs := by
      apply List.map_congr_left
      intro img hm
      obtain ⟨hw, hh⟩ := hdims img hm
      show (rgbBytes img).length = h * w * 3
      rw [rgbBytes_length, hw, hh]
      ring
    rw [hmap, List.map_const', List.sum_replicate, smul_eq_mul, hlen]
    ring

theorem claim_C3_witness :
    load_bhwc_rgbimagebatch dec32 [0, 1]
      = .ok { data := (([img32, img32]).map rgbBytes).flatten, shape := [2, 32, 32, 3] }
    ∧ (([img32, img32]).map rgbBytes).flatten.length = 6144
    ∧ (([img32, img32]).map rgbBytes).flatten.take 3072
        = (([img32, img32]).map rgbBytes).flatten.drop 3072 := by
  have hc := claim_C3 dec32 [0, 1] [img32, img32] 32 32 (by simp) rfl
    (fun img hm => by
      rcases List.mem_cons.mp hm with h1 | h1
      · rw [h1]; exact ⟨rfl, rfl⟩
      · rcases List.mem_cons.mp h1 with h2 | h2
        · rw [h2]; exact ⟨rfl, rfl⟩
        · cases h2)
  refine ⟨hc.1, ?_, ?_⟩
  · rw [hc.2]
    rfl
  · have hlen32 : (rgbBytes img32).length = 3072 := by rw [rgbBytes_length]; rfl
    rw [List.map_cons, List.map_cons, List.map_nil, List.flatten_cons, List.flatten_cons,
      List.flatten_nil, List.append_nil, ← hlen32, List.take_left, List.drop_left]

/-- If some remaining image has dimensions other than (w, h), the tail
loop of `load_bhwc_rgbimagebatch` aborts with the dimension-mismatch
panic. -/
theorem bhwc_loop_mismatch {P : Type} (decode : P → Option RgbImage) (paths : List P)
    (imgs : List RgbImage) (w h : Nat)
    (hdec : paths.map decode = imgs.map some) :
    ∀ (k i : Nat) (b : RgbImageBatch), i + k = paths.length →
      (∃ j, i ≤ j ∧ j < paths.length ∧
        ∃ imgj, imgs.get? j = some imgj ∧ ¬(imgj.width = w ∧ imgj.height = h)) →
      (List.range' i k).foldlM
          (load_batch_step decode (fun batch _idx img => .ok (push_rgb_pixels batch img)) paths w h) b
        = .error .panicDimMismatch := by
  have hlen : paths.length = imgs.length := by
    have h1 := congrArg List.length hdec
    simpa using h1
  intro k
  induction k with
  | zero =>
    intro i b hik hj
    obtain ⟨j, hij, hjlen, _⟩ := hj
    omega
  | succ k ih =>
    intro i b hik hj
    rw [List.range'_succ, exceptFoldlM_cons]
    have hi : i < paths.length := by omega
    obtain ⟨p, hp⟩ : ∃ p, paths.get? i = some p := by
      cases hp : paths.get? i with
      | none => rw [List.get?_eq_none] at hp; omega
      | some p => exact ⟨p, rfl⟩
    obtain ⟨img, himg⟩ : ∃ img, imgs.get? i = some img := by
      cases hq : imgs.get? i with
      | none => rw [List.get?_eq_none] at hq; omega
      | some img => exact ⟨img, rfl⟩
    have hdecp : decode p = some img := by
      have h1 := congrArg (fun l => l.get? i) hdec
      simp only [List.get?_map, hp, himg, Option.map_some] at h1
      simpa using h1
    by_cases hdim : img.width = w ∧ img.height = h
    · have hstep : load_batch_step decode
          (fun batch _idx img => .ok (push_rgb_pixels batch img)) paths w h b i
          = .ok (push_rgb_pixels b img) := by
        rw [load_batch_step, hp]
        dsimp only []
        rw [load_rgbimage, hdecp]
        dsimp only []
        rw [if_pos hdim]
      rw [hstep]
      dsimp only []
      apply ih (i + 1) (push_rgb_pixels b img) (by omega)
      obtain ⟨j, hij, hjlen, imgj, himgj, hnd⟩ := hj
      refine ⟨j, ?_, hjlen, imgj, himgj, hnd⟩
      rcases Nat.eq_or_lt_of_le hij with heq | hlt
      · exfalso
        rw [← heq] at himgj
        rw [himg] at himgj
        injection himgj with himgj
        rw [himgj] at hdim
        exact hnd hdim
      · omega
    · have hstep : load_batch_step decode
          (fun batch _idx img => .ok (push_rgb_pixels batch img)) paths w h b i
          = .error .panicDimMismatch := by
        rw [load_batch_step, hp]
        dsimp only []
        rw [load_rgbimage, hdecp]
        dsimp only []
        rw [if_neg hdim]
      rw [hstep]

/-- Claim C5: when the first image decodes to dimensions (w, h) and some
later image of the batch decodes to different dimensions, batch packing
fails with the dimension-mismatch panic and returns no batch at all. -/
theorem claim_C5 {P : Type} (decode : P → Option RgbImage) (paths : List P)
    (imgs : List RgbImage) (img0 : RgbImage) (w h : Nat)
    (hdec : paths.map decode = imgs.map some)
    (h0 : imgs.get? 0 = some img0) (hw0 : img0.width = w) (hh0 : img0.height = h)
    (hbad : ∃ j, 1 ≤ j ∧ j < paths.length ∧
      ∃ imgj, imgs.get? j = some imgj ∧ ¬(imgj.width = w ∧ imgj.height = h)) :
    load_bhwc_rgbimagebatch decode paths = .error .panicDimMismatch := by
  have hlen : paths.length = imgs.length := by
    have h1 := congrArg List.length hdec
    simpa using h1
  obtain ⟨p, ps, rfl⟩ : ∃ p ps, paths = p :: ps := by
    cases paths with
    | nil =>
      obtain ⟨j, _, hjlen, _⟩ := hbad
      exact absurd hjlen (by simp)
    | cons p ps => exact ⟨p, ps, rfl⟩
  obtain ⟨i0, irest, rfl⟩ : ∃ i0 irest, imgs = i0 :: irest := by
    cases imgs with
    | nil => simp at h0
    | cons i0 irest => exact ⟨i0, irest, rfl⟩
  have h00 : i0 = img0 := by
    rw [List.get?_cons_zero] at h0
    injection h0
  have hw0i : i0.width = w := by rw [h00]; exact hw0
  have hh0i : i0.height = h := by rw [h00]; exact hh0
  have hdec0 : decode p = some i0 := by
    have h1 := congrArg (fun l => l.get? 0) hdec
    simpa using h1
  rw [load_bhwc_rgbimagebatch, load_batch]
  dsimp only [List.head?_cons]
  rw [load_rgbimage, hdec0]
  dsimp only []
  have hnew : RgbImageBatch.new [(p :: ps).length, i0.height, i0.width, 3]
      = .ok { data := [], shape := [(p :: ps).length, i0.height, i0.width, 3] } := by
    rw [RgbImageBatch.new, if_pos]
    exact ⟨rfl, rfl⟩
  rw [hnew]
  dsimp only []
  rw [hw0i, hh0i]
  apply bhwc_loop_mismatch decode (p :: ps) (i0 :: irest) w h hdec
    ((p :: ps).length - 1) 1 _ (by simp; omega)
  obtain ⟨j, hj1, hjlen, imgj, himgj, hnd⟩ := hbad
  exact ⟨j, hj1, hjlen, imgj, himgj, hnd⟩

theorem claim_C5_witness :
    load_bhwc_rgbimagebatch decMix [0, 1] = .error .panicDimMismatch :=
  claim_C5 decMix [0, 1] [img32, img28] img32 32 32 rfl rfl rfl rfl
    ⟨1, Nat.le_refl 1, by simp, img28, rfl, by intro hc; exact absurd hc.1 (by decide)⟩

/-- The tail loop of batch packing can fail in several ways, but never
with the empty-slice unwrap panic. -/
theorem bhwc_loop_ne_empty {P : Type} (decode : P → Option RgbImage) (paths : List P)
    (w h : Nat) :
    ∀ (l : List Nat) (b : RgbImageBatch),
      l.foldlM (load_batch_step decode
          (fun batch _idx img => .ok (push_rgb_pixels batch img)) paths w h) b
        ≠ .error .panicEmptyPaths := by
  intro l
  induction l with
  | nil => intro b hh; cases hh
  | cons a as ih =>
    intro b
    rw [exceptFoldlM_cons]
    cases hstep : load_batch_step decode
        (fun batch _idx img => .ok (push_rgb_pixels batch img)) paths w h b a with
    | error e =>
      have hne : e ≠ .panicEmptyPaths := by
        rw [load_batch_step] at hstep
        cases hp : paths.get? a with
        | none =>
          rw [hp] at hstep
          injection hstep with hstep
          rw [← hstep]
          intro hc; cases hc
        | some p =>
          rw [hp] at hstep
          dsimp only [] at hstep
          cases hd : decode p with
          | none =>
            rw [load_rgbimage, hd] at hstep
            injection hstep with hstep
            rw [← hstep]
            intro hc; cases hc
          | some img =>
            rw [load_rgbimage, hd] at hstep
            dsimp only [] at hstep
            by_cases hdim : img.width = w ∧ img.height = h
            · rw [if_pos hdim] at hstep
              cases hstep
            · rw [if_neg hdim] at hstep
              injection hstep with hstep
              rw [← hstep]
              intro hc; cases hc
      intro hh
      injection hh with hh
      exact hne hh
    | ok b2 => exact ih b2

/-- Claim C9: calling the batch loader on an empty path slice hits the
`paths.first().unwrap()` panic rather than returning an error value or an
empty batch; for any non-empty path slice that panic is unreachable. -/
theorem claim_C9 :
    (∀ (P : Type) (decode : P → Option RgbImage),
      load_bhwc_rgbimagebatch decode ([] : List P) = .error .panicEmptyPaths)
    ∧ (∀ (P : Type) (decode : P → Option RgbImage) (paths : List P), paths ≠ [] →
      load_bhwc_rgbimagebatch decode paths ≠ .error .panicEmptyPaths) := by
  constructor
  · intro P decode
    rfl
  · intro P decode paths hne hh
    obtain ⟨p, ps, rfl⟩ := List.exists_cons_of_ne_nil hne
    rw [load_bhwc_rgbimagebatch, load_batch] at hh
    dsimp only [List.head?_cons] at hh
    cases hd : decode p with
    | none =>
      rw [load_rgbimage, hd] at hh
      cases hh
    | some img =>
      rw [load_rgbimage, hd] at hh
      dsimp only [] at hh
      have hnew : RgbImageBatch.new [(p :: ps).length, img.height, img.width, 3]
          = .ok { data := [], shape := [(p :: ps).length, img.height, img.width, 3] } := by
        rw [RgbImageBatch.new, if_pos]
        exact ⟨rfl, rfl⟩
      rw [hnew] at hh
      dsimp only [] at hh
      exact bhwc_loop_ne_empty decode (p :: ps) img.width img.height _ _ hh

theorem claim_C9_witness : load_bhwc_rgbimagebatch decNone [0] ≠ .error .panicEmptyPaths :=
  claim_C9.2 Nat decNone [0] (by simp)
